import Mathlib

set_option maxRecDepth 100000

/-!
Verification of the symbolic-tensor core of `tensor-calc` (Rust).

The development shallowly embeds `src/symbolic.rs` and `src/tensor.rs`:

* Rust `f64` constants are modelled by `F64`: rationals in lowest terms with
  a positive denominator for the finite values, plus distinguished encodings
  of NaN and the two infinities (zero denominator).  Every finite `f64` value
  that the verified claims exercise (integer literals, `0.5`, small decimal
  literals) is exactly representable and the arithmetic performed on it by
  the program is exact; the IEEE comparison `==`, which is irreflexive on
  NaN, is modelled by `F64.eq`, and the derived `PartialEq` of the expression
  enum by `SymbolicExpr.rustEq`.  Rounding and the negative zero are outside
  the model.
* `SymbolicExpr`, its `Display` rendering, `parse`, `simplify`, `derivative`
  and `is_zero` are translated function by function from `src/symbolic.rs`.
* The metric utilities and the five curvature stages are translated from
  `src/tensor.rs`.

All definitions are executable and kernel-reducible so that concrete runs of
the pipeline can be settled by `decide`.
-/

namespace TensorCalc

/-- Fuelled Euclidean algorithm on naturals.  The fuel only serves to make the
recursion structural (hence kernel-reducible); `a + 1` steps always suffice
because the first argument strictly decreases. -/
def gcdF : Nat → Nat → Nat → Nat
  | 0, _, b => b
  | f + 1, a, b => if a = 0 then b else gcdF f (b % a) a

/-- Greatest common divisor used to keep `F64` values in lowest terms. -/
def ngcd (a b : Nat) : Nat := gcdF (a + 1) a b

/-- Model of Rust `f64`.  A value with `den ≠ 0` is the exact rational
`num / den`, kept in lowest terms; `den = 0` encodes the non-finite values,
with `num = 0` for NaN and `num = 1` / `num = -1` for `+∞` / `-∞`.  Every
finite `f64` the verified claims exercise (integer literals, `0.5`, small
decimal literals) is exactly representable and the arithmetic the program
performs on them is exact, so rational arithmetic coincides with `f64`
arithmetic on those runs; NaN and the infinities are represented so that the
irreflexivity of `f64 ==` on NaN is part of the model.  Not modelled: the
negative zero (`-0.0 == 0.0` anyway) and rounding/overflow of literals or
results that do not fit an `f64` (the claims never reach such values). -/
structure F64 where
  num : Int
  den : Nat
deriving DecidableEq, Repr

/-- The NaN value (`den = 0`, `num = 0`). -/
def F64.nan : F64 := ⟨0, 0⟩

/-- NaN test. -/
def F64.isNan (a : F64) : Bool := a.den == 0 && a.num == 0

/-- Model of the IEEE comparison `==` on `f64`: false whenever either side is
NaN, and value equality otherwise.  On the normalised values produced by the
embedding, value equality of non-NaN numbers is structural equality. -/
def F64.eq (a b : F64) : Bool :=
  !a.isNan && !b.isNan && a.num == b.num && a.den == b.den

/-- Normalise `n / d` to lowest terms.  Every caller passes `d > 0` (the
arithmetic below dispatches the non-finite operands first); `d = 0` is mapped
to NaN for definiteness. -/
def F64.norm (n : Int) (d : Nat) : F64 :=
  if d = 0 then F64.nan
  else
    let g := ngcd n.natAbs d
    ⟨n / (g : Int), d / g⟩

/-- Embed an integer literal, e.g. `2.0`. -/
def F64.ofInt (n : Int) : F64 := ⟨n, 1⟩

/-- Embed a natural-number literal. -/
def F64.ofNat (n : Nat) : F64 := ⟨(n : Int), 1⟩

/-- Model of `f64` addition: exact on finite values; NaN propagates;
`∞ + ∞ = ∞`, `-∞ + -∞ = -∞`, `∞ + (-∞) = NaN`, `±∞ + finite = ±∞`. -/
def F64.add (a b : F64) : F64 :=
  if a.isNan || b.isNan then F64.nan
  else if a.den = 0 then
    if b.den = 0 then (if a.num = b.num then a else F64.nan) else a
  else if b.den = 0 then b
  else F64.norm (a.num * b.den + b.num * a.den) (a.den * b.den)

/-- Model of `f64` subtraction: exact on finite values; NaN propagates;
`∞ - ∞ = NaN`, `∞ - (-∞) = ∞`, `±∞ - finite = ±∞`, `finite - ±∞ = ∓∞`. -/
def F64.sub (a b : F64) : F64 :=
  if a.isNan || b.isNan then F64.nan
  else if a.den = 0 then
    if b.den = 0 then (if a.num = b.num then F64.nan else a) else a
  else if b.den = 0 then ⟨-b.num, 0⟩
  else F64.norm (a.num * b.den - b.num * a.den) (a.den * b.den)

/-- Model of `f64` multiplication: exact on finite values; NaN propagates;
`±∞ · 0 = NaN`, and an infinite factor otherwise gives an infinity carrying
the product of the signs. -/
def F64.mul (a b : F64) : F64 :=
  if a.isNan || b.isNan then F64.nan
  else if a.den = 0 || b.den = 0 then
    if a.num = 0 || b.num = 0 then F64.nan
    else if (0 < a.num) = (0 < b.num) then ⟨1, 0⟩ else ⟨-1, 0⟩
  else F64.norm (a.num * b.num) (a.den * b.den)

/-- Model of `f64` division: exact on finite values; NaN propagates;
`∞ / ∞ = NaN`, `±∞ / finite = ±∞` (sign product, the unsigned zero counting
as positive), `finite / ±∞ = 0`, `0 / 0 = NaN`, and `x / 0 = ±∞` for finite
nonzero `x`. -/
def F64.div (a b : F64) : F64 :=
  if a.isNan || b.isNan then F64.nan
  else if a.den = 0 then
    if b.den = 0 then F64.nan
    else if (0 < a.num) = (0 ≤ b.num) then ⟨1, 0⟩ else ⟨-1, 0⟩
  else if b.den = 0 then ⟨0, 1⟩
  else if b.num = 0 then
    if a.num = 0 then F64.nan
    else if 0 < a.num then ⟨1, 0⟩ else ⟨-1, 0⟩
  else if 0 ≤ b.num then F64.norm (a.num * b.den) (a.den * b.num.natAbs)
  else F64.norm (-(a.num * b.den)) (a.den * b.num.natAbs)

/-- Iterated product, structural in the exponent so it kernel-reduces. -/
def F64.powNat (a : F64) : Nat → F64
  | 0 => ⟨1, 1⟩
  | k + 1 => F64.mul a (F64.powNat a k)

/-- Model of `f64::powf`.  The IEEE cases `pow(x, 0) = 1` and `pow(1, y) = 1`
(which hold even for NaN arguments) come first, NaN otherwise propagates, a
finite base with a finite integral exponent raises exactly, and the remaining
cases (an infinite operand, or a non-integral exponent — whose true value is
irrational and which no verified claim ever evaluates) are conservatively
mapped to NaN. -/
def F64.powf (a b : F64) : F64 :=
  if F64.eq b ⟨0, 1⟩ then ⟨1, 1⟩
  else if F64.eq a ⟨1, 1⟩ then ⟨1, 1⟩
  else if a.isNan || b.isNan then F64.nan
  else if a.den = 0 || b.den = 0 then F64.nan
  else if b.den = 1 then
    if 0 ≤ b.num then F64.powNat a b.num.natAbs
    else
      let p := F64.powNat a b.num.natAbs
      F64.div ⟨1, 1⟩ p
  else F64.nan

/-- Decimal digits of the fractional part `r / den` (`r < den`), produced by
long division.  64 digits of fuel cover every value printable by the program
runs under verification (their fractional parts are finite decimals such as
`.5`). -/
def fracDigitChars : Nat → Nat → Nat → List Char
  | 0, _, _ => []
  | _ + 1, 0, _ => []
  | fuel + 1, r, den => Char.ofNat (48 + r * 10 / den) :: fracDigitChars fuel (r * 10 % den) den

/-- Rendering of a non-integral `F64`, modelling Rust `Display` for `f64`,
which prints the shortest round-tripping decimal; on the exactly-representable
finite decimals reached by the claims this is the exact decimal expansion. -/
def F64.decimal (c : F64) : String :=
  (if c.num < 0 then "-" else "") ++ toString (c.num.natAbs / c.den) ++ "." ++
    String.mk (fracDigitChars 64 (c.num.natAbs % c.den) c.den)

/-- Expression tree of `src/symbolic.rs` (`enum SymbolicExpr`). -/
inductive SymbolicExpr : Type where
  | Variable : String → SymbolicExpr
  | Constant : F64 → SymbolicExpr
  | Add : SymbolicExpr → SymbolicExpr → SymbolicExpr
  | Subtract : SymbolicExpr → SymbolicExpr → SymbolicExpr
  | Multiply : SymbolicExpr → SymbolicExpr → SymbolicExpr
  | Divide : SymbolicExpr → SymbolicExpr → SymbolicExpr
  | Power : SymbolicExpr → SymbolicExpr → SymbolicExpr
  | Function : String → List SymbolicExpr → SymbolicExpr
  | Zero : SymbolicExpr
  | One : SymbolicExpr

/-- Structural equality of expression trees, used only to build the
`DecidableEq` instance for stating theorems.  Unlike the program's `==`
(`rustEq` below), it compares `Constant` fields structurally, so it is
reflexive also on NaN; the two agree on every NaN-free expression. -/
def SymbolicExpr.beq : SymbolicExpr → SymbolicExpr → Bool
  | .Variable a, .Variable b => a == b
  | .Constant a, .Constant b => decide (a = b)
  | .Add a b, .Add c d => beq a c && beq b d
  | .Subtract a b, .Subtract c d => beq a c && beq b d
  | .Multiply a b, .Multiply c d => beq a c && beq b d
  | .Divide a b, .Divide c d => beq a c && beq b d
  | .Power a b, .Power c d => beq a c && beq b d
  | .Function a as, .Function b bs => a == b && beqArgs as bs
  | .Zero, .Zero => true
  | .One, .One => true
  | _, _ => false
where
  beqArgs : List SymbolicExpr → List SymbolicExpr → Bool
  | [], [] => true
  | x :: xs, y :: ys => SymbolicExpr.beq x y && beqArgs xs ys
  | _, _ => false

/-- Structural induction principle for the nested expression type: the
`Function` case receives the inductive hypothesis for every argument. -/
theorem SymbolicExpr.inductionOn {motive : SymbolicExpr → Prop}
    (hvar : ∀ s, motive (.Variable s))
    (hconst : ∀ c, motive (.Constant c))
    (hadd : ∀ a b, motive a → motive b → motive (.Add a b))
    (hsub : ∀ a b, motive a → motive b → motive (.Subtract a b))
    (hmul : ∀ a b, motive a → motive b → motive (.Multiply a b))
    (hdiv : ∀ a b, motive a → motive b → motive (.Divide a b))
    (hpow : ∀ a b, motive a → motive b → motive (.Power a b))
    (hfun : ∀ s args, (∀ a ∈ args, motive a) → motive (.Function s args))
    (hzero : motive .Zero)
    (hone : motive .One) :
    ∀ e, motive e
  | .Variable s => hvar s
  | .Constant c => hconst c
  | .Add a b =>
      hadd a b
        (inductionOn hvar hconst hadd hsub hmul hdiv hpow hfun hzero hone a)
        (inductionOn hvar hconst hadd hsub hmul hdiv hpow hfun hzero hone b)
  | .Subtract a b =>
      hsub a b
        (inductionOn hvar hconst hadd hsub hmul hdiv hpow hfun hzero hone a)
        (inductionOn hvar hconst hadd hsub hmul hdiv hpow hfun hzero hone b)
  | .Multiply a b =>
      hmul a b
        (inductionOn hvar hconst hadd hsub hmul hdiv hpow hfun hzero hone a)
        (inductionOn hvar hconst hadd hsub hmul hdiv hpow hfun hzero hone b)
  | .Divide a b =>
      hdiv a b
        (inductionOn hvar hconst hadd hsub hmul hdiv hpow hfun hzero hone a)
        (inductionOn hvar hconst hadd hsub hmul hdiv hpow hfun hzero hone b)
  | .Power a b =>
      hpow a b
        (inductionOn hvar hconst hadd hsub hmul hdiv hpow hfun hzero hone a)
        (inductionOn hvar hconst hadd hsub hmul hdiv hpow hfun hzero hone b)
  | .Function s args =>
      hfun s args
        (argsIH args)
  | .Zero => hzero
  | .One => hone
where
  argsIH : ∀ args : List SymbolicExpr, ∀ a ∈ args, motive a
  | [], _, h => absurd h (List.not_mem_nil _)
  | x :: xs, a, h => by
      rcases List.mem_cons.mp h with h | h
      · exact h ▸ inductionOn hvar hconst hadd hsub hmul hdiv hpow hfun hzero hone x
      · exact argsIH xs a h

theorem SymbolicExpr.beqArgs_iff (as bs : List SymbolicExpr)
    (ih : ∀ x ∈ as, ∀ y, SymbolicExpr.beq x y = true ↔ x = y) :
    SymbolicExpr.beq.beqArgs as bs = true ↔ as = bs := by
  induction as generalizing bs with
  | nil => cases bs <;> simp [SymbolicExpr.beq.beqArgs]
  | cons x xs ihl =>
    cases bs with
    | nil => simp [SymbolicExpr.beq.beqArgs]
    | cons y ys =>
      have hx := ih x (List.mem_cons_self x xs) y
      have hxs := ihl ys (fun a ha => ih a (List.mem_cons_of_mem x ha))
      simp [SymbolicExpr.beq.beqArgs, hx, hxs]

theorem SymbolicExpr.beq_iff (a : SymbolicExpr) : ∀ b, SymbolicExpr.beq a b = true ↔ a = b := by
  induction a using SymbolicExpr.inductionOn with
  | hvar s => intro b; cases b <;> simp [SymbolicExpr.beq]
  | hconst c => intro b; cases b <;> simp [SymbolicExpr.beq]
  | hadd x y ihx ihy => intro b; cases b <;> simp [SymbolicExpr.beq, ihx, ihy]
  | hsub x y ihx ihy => intro b; cases b <;> simp [SymbolicExpr.beq, ihx, ihy]
  | hmul x y ihx ihy => intro b; cases b <;> simp [SymbolicExpr.beq, ihx, ihy]
  | hdiv x y ihx ihy => intro b; cases b <;> simp [SymbolicExpr.beq, ihx, ihy]
  | hpow x y ihx ihy => intro b; cases b <;> simp [SymbolicExpr.beq, ihx, ihy]
  | hfun s args ih =>
    intro b
    cases b <;> simp [SymbolicExpr.beq]
    rw [SymbolicExpr.beqArgs_iff args _ (fun x hx y => ih x hx y)]
    tauto
  | hzero => intro b; cases b <;> simp [SymbolicExpr.beq]
  | hone => intro b; cases b <;> simp [SymbolicExpr.beq]

instance : DecidableEq SymbolicExpr := fun a b =>
  decidable_of_iff _ (SymbolicExpr.beq_iff a b)

/-- Comma-and-space separator used by the `Function` arm of `Display`
(Rust `args.iter().map(to_string).collect::<Vec<_>>().join(", ")`). -/
def joinComma : List String → String
  | [] => ""
  | [s] => s
  | s :: rest => s ++ ", " ++ joinComma rest

/-- Rendering of an expression, translated from `impl fmt::Display for
SymbolicExpr` in `src/symbolic.rs`.  An integral constant prints as an integer
(the `val.fract() == 0.0` branch, i.e. `den = 1` here); any other constant
takes the `{}` branch: a non-integral finite value prints as a decimal, and
the non-finite values print as `NaN`/`inf`/`-inf` exactly as Rust `Display`
for `f64` does (their `fract()` is NaN, which is `!= 0.0`). -/
def SymbolicExpr.toStr : SymbolicExpr → String
  | .Variable var => var
  | .Constant val =>
      if val.den = 0 then
        (if val.num = 0 then "NaN" else if 0 < val.num then "inf" else "-inf")
      else if val.den = 1 then toString val.num else F64.decimal val
  | .Add l r => "(" ++ l.toStr ++ " + " ++ r.toStr ++ ")"
  | .Subtract l r => "(" ++ l.toStr ++ " - " ++ r.toStr ++ ")"
  | .Multiply l r => "(" ++ l.toStr ++ " * " ++ r.toStr ++ ")"
  | .Divide l r => "(" ++ l.toStr ++ " / " ++ r.toStr ++ ")"
  | .Power b e => b.toStr ++ "^" ++ e.toStr
  | .Function name args =>
      if args.isEmpty then name ++ "()"
      else name ++ "(" ++ joinComma (toStrArgs args) ++ ")"
  | .Zero => "0"
  | .One => "1"
where
  toStrArgs : List SymbolicExpr → List String
  | [] => []
  | e :: es => e.toStr :: toStrArgs es

/-- Match block of `simplify` for `Add` nodes (on the already simplified
children), from `src/symbolic.rs`. -/
def simplifyAdd (l r : SymbolicExpr) : SymbolicExpr :=
  match l, r with
  | .Zero, expr => expr
  | expr, .Zero => expr
  | .Constant a, .Constant b => .Constant (F64.add a b)
  | _, _ => .Add l r

/-- Match block of `simplify` for `Subtract` nodes. -/
def simplifySub (l r : SymbolicExpr) : SymbolicExpr :=
  match l, r with
  | expr, .Zero => expr
  | .Zero, expr => .Subtract .Zero expr
  | .Constant a, .Constant b => .Constant (F64.sub a b)
  | _, _ => .Subtract l r

/-- Match block of `simplify` for `Multiply` nodes. -/
def simplifyMul (l r : SymbolicExpr) : SymbolicExpr :=
  match l, r with
  | .Zero, _ => .Zero
  | _, .Zero => .Zero
  | .One, expr => expr
  | expr, .One => expr
  | .Constant a, .Constant b => .Constant (F64.mul a b)
  | _, _ => .Multiply l r

/-- Match block of `simplify` for `Divide` nodes; the constant fold carries
the Rust guard `*b != 0.0`, which is the negation of the IEEE comparison (it
passes for NaN and infinite divisors, since those are not `==` to zero). -/
def simplifyDiv (l r : SymbolicExpr) : SymbolicExpr :=
  match l, r with
  | .Zero, _ => .Zero
  | expr, .One => expr
  | .Constant a, .Constant b =>
      if !F64.eq b ⟨0, 1⟩ then .Constant (F64.div a b) else .Divide l r
  | _, _ => .Divide l r

/-- Match block of `simplify` for `Power` nodes. -/
def simplifyPow (b e : SymbolicExpr) : SymbolicExpr :=
  match b, e with
  | _, .Zero => .One
  | expr, .One => expr
  | .Zero, _ => .Zero
  | .One, _ => .One
  | .Constant a, .Constant c => .Constant (F64.powf a c)
  | _, _ => .Power b e

/-- One bottom-up simplification pass, translated from
`SymbolicExpr::simplify` in `src/symbolic.rs`.  Leaves (including `Function`
nodes, whose arguments are not visited) are returned unchanged. -/
def SymbolicExpr.simplify : SymbolicExpr → SymbolicExpr
  | .Add left right => simplifyAdd left.simplify right.simplify
  | .Subtract left right => simplifySub left.simplify right.simplify
  | .Multiply left right => simplifyMul left.simplify right.simplify
  | .Divide left right => simplifyDiv left.simplify right.simplify
  | .Power base exp => simplifyPow base.simplify exp.simplify
  | e => e

/-- Symbolic derivative with respect to the variable `var`, translated from
`SymbolicExpr::derivative` in `src/symbolic.rs`. -/
def SymbolicExpr.derivative : SymbolicExpr → String → SymbolicExpr
  | .Variable v, var => if v = var then .One else .Zero
  | .Constant _, _ => .Zero
  | .Add left right, var => .Add (left.derivative var) (right.derivative var)
  | .Subtract left right, var => .Subtract (left.derivative var) (right.derivative var)
  | .Multiply left right, var =>
      .Add (.Multiply (left.derivative var) right) (.Multiply left (right.derivative var))
  | .Divide left right, var =>
      .Divide
        (.Subtract (.Multiply (left.derivative var) right) (.Multiply left (right.derivative var)))
        (.Power right (.Constant (F64.ofInt 2)))
  | .Power base exp, var =>
      match exp, base with
      | .Constant n, _ =>
          .Multiply
            (.Multiply (.Constant n) (.Power base (.Constant (F64.sub n (F64.ofInt 1)))))
            (base.derivative var)
      | _, _ => .Zero
  | .Function name args, var =>
      match name, args with
      | "sin", [a] => .Multiply (.Function "cos" [a]) (a.derivative var)
      | "cos", [a] => .Multiply (.Subtract .Zero (.Function "sin" [a])) (a.derivative var)
      | _, _ => .Zero
  | .Zero, _ => .Zero
  | .One, _ => .Zero

/-- Zero test used by the sparse-storage filter, translated from
`SymbolicExpr::is_zero`: true exactly for the `Zero` sentinel and for
`Constant(val)` with `*val == 0.0` under the IEEE comparison (so false for
NaN and infinite constants). -/
def SymbolicExpr.is_zero : SymbolicExpr → Bool
  | .Zero => true
  | .Constant val => F64.eq val ⟨0, 1⟩
  | _ => false

/-- The comparison `==` of the Rust program on expressions: the derived
`PartialEq` of `enum SymbolicExpr`, which compares constructors and fields
structurally except that `Constant` fields are compared with `f64 ==`
(`F64.eq`), making it irreflexive on any expression containing a NaN
constant. -/
def SymbolicExpr.rustEq : SymbolicExpr → SymbolicExpr → Bool
  | .Variable a, .Variable b => a == b
  | .Constant a, .Constant b => F64.eq a b
  | .Add a b, .Add c d => rustEq a c && rustEq b d
  | .Subtract a b, .Subtract c d => rustEq a c && rustEq b d
  | .Multiply a b, .Multiply c d => rustEq a c && rustEq b d
  | .Divide a b, .Divide c d => rustEq a c && rustEq b d
  | .Power a b, .Power c d => rustEq a c && rustEq b d
  | .Function a as, .Function b bs => a == b && rustEqArgs as bs
  | .Zero, .Zero => true
  | .One, .One => true
  | _, _ => false
where
  rustEqArgs : List SymbolicExpr → List SymbolicExpr → Bool
  | [], [] => true
  | x :: xs, y :: ys => SymbolicExpr.rustEq x y && rustEqArgs xs ys
  | _, _ => false

/-- True when no `Constant` node of the expression holds NaN — exactly the
expressions on which the program's `==` (`rustEq`) is reflexive. -/
def SymbolicExpr.noNan : SymbolicExpr → Bool
  | .Variable _ => true
  | .Constant c => !c.isNan
  | .Add a b => noNan a && noNan b
  | .Subtract a b => noNan a && noNan b
  | .Multiply a b => noNan a && noNan b
  | .Divide a b => noNan a && noNan b
  | .Power a b => noNan a && noNan b
  | .Function _ args => noNanArgs args
  | .Zero => true
  | .One => true
where
  noNanArgs : List SymbolicExpr → Bool
  | [] => true
  | e :: es => SymbolicExpr.noNan e && noNanArgs es

/-- Error enum of `src/lib.rs` (`TensorError`).  The `JsonError` variant
belongs to the excluded CLI/serde layer and is not modelled. -/
inductive TensorError : Type where
  | InvalidMetric : String → TensorError
  | ComputationError : String → TensorError
deriving DecidableEq, Repr

/-- Both ends of a character list trimmed of whitespace, modelling
`str::trim`.  `Char.isWhitespace` covers the ASCII whitespace the verified
inputs can contain (Rust trims the full Unicode class). -/
def rustTrim (l : List Char) : List Char :=
  ((l.dropWhile Char.isWhitespace).reverse.dropWhile Char.isWhitespace).reverse

/-- Character class of the identifier regexes in `parse`
(`[a-zA-Z0-9_]`; Rust also lets `input.chars().all(is_alphanumeric)` accept
non-ASCII letters, which the verified inputs do not contain). -/
def isIdentChar (c : Char) : Bool := c.isAlphanum || c = '_'

/-- Leading character class `[a-zA-Z_]` of the identifier regexes. -/
def isIdentStart (c : Char) : Bool := c.isAlpha || c = '_'

/-- Numeric value of a digit string (most significant first). -/
def digitsToNat (l : List Char) : Nat :=
  l.foldl (fun a c => a * 10 + (c.toNat - 48)) 0

/-- Recogniser and exact value of a Rust `f64` literal
(`input.parse::<f64>()`): optional sign, then case-insensitive
`inf`/`infinity`/`nan`, or decimal digits with optional fraction and optional
`e`/`E` exponent, with at least one mantissa digit.  `nan` parses to the NaN
value (the sign bit of a signed NaN is unobservable through `==` and is not
modelled) and `inf`/`infinity` to the signed infinity; a finite literal is
computed exactly as a rational, with huge exponents kept exact instead of
overflowing to an IEEE infinity (no claim evaluates such a literal). -/
def parseF64 (l : List Char) : Option F64 :=
  let signSplit : Bool × List Char :=
    match l with
    | '+' :: t => (false, t)
    | '-' :: t => (true, t)
    | t => (false, t)
  let neg := signSplit.1
  let rest := signSplit.2
  let low := rest.map Char.toLower
  if low = "nan".toList then
    some F64.nan
  else if low = "inf".toList || low = "infinity".toList then
    some (if neg then ⟨-1, 0⟩ else ⟨1, 0⟩)
  else
    let ip := rest.takeWhile Char.isDigit
    let r1 := rest.dropWhile Char.isDigit
    let fracSplit : List Char × List Char :=
      match r1 with
      | '.' :: t => (t.takeWhile Char.isDigit, t.dropWhile Char.isDigit)
      | _ => ([], r1)
    let fp := fracSplit.1
    let r2 := fracSplit.2
    if ip.isEmpty && fp.isEmpty then none
    else
      let mant : Int := if neg then -(digitsToNat (ip ++ fp) : Int) else (digitsToNat (ip ++ fp) : Int)
      match r2 with
      | [] => some (F64.norm mant (10 ^ fp.length))
      | e :: t =>
        if e = 'e' || e = 'E' then
          let expSplit : Bool × List Char :=
            match t with
            | '+' :: u => (false, u)
            | '-' :: u => (true, u)
            | u => (false, u)
          let eneg := expSplit.1
          let ds := expSplit.2
          if ds.isEmpty || !(ds.all Char.isDigit) then none
          else
            let ex := digitsToNat ds
            if eneg then some (F64.norm mant (10 ^ (fp.length + ex)))
            else some (F64.norm (mant * ((10 : Nat) ^ ex : Nat)) (10 ^ fp.length))
        else none

/-- Match of the power regex `^([a-zA-Z_][a-zA-Z0-9_]*)\^(\d+)$` of `parse`,
returning the captured identifier and exponent digits.  Because `^` is in
neither character class, the regex matches exactly when the maximal identifier
prefix is followed by `^` and a nonempty digit tail. -/
def powMatch (l : List Char) : Option (List Char × Nat) :=
  match l.takeWhile isIdentChar, l.dropWhile isIdentChar with
  | c :: cs, '^' :: ds =>
      if isIdentStart c && !ds.isEmpty && ds.all Char.isDigit then
        some (c :: cs, digitsToNat ds)
      else none
  | _, _ => none

/-- Match of the function regex `^([a-zA-Z_][a-zA-Z0-9_]*)\(([^)]*)\)$` of
`parse`, returning the captured name and raw argument text.  `(` is not an
identifier character, so the name capture is exactly the maximal identifier
prefix; the body may contain anything except `)`, which must be the final
character. -/
def funcMatch (l : List Char) : Option (List Char × List Char) :=
  match l.takeWhile isIdentChar, l.dropWhile isIdentChar with
  | c :: cs, '(' :: t =>
      match t.getLast? with
      | some ')' =>
          if isIdentStart c && !(t.dropLast.contains ')') then
            some (c :: cs, t.dropLast)
          else none
      | _ => none
  | _, _ => none

/-- Split on commas, modelling `str::split(',')` (empty pieces preserved). -/
def splitOnComma : List Char → List (List Char)
  | [] => [[]]
  | c :: t =>
      if c = ',' then [] :: splitOnComma t
      else
        match splitOnComma t with
        | [] => [[c]]
        | h :: r => (c :: h) :: r

mutual

/-- Translation of `SymbolicExpr::parse` from `src/symbolic.rs`.  The `fuel`
argument only makes the recursion (through function arguments) structural so
that the definition kernel-reduces; each nesting level strips an identifier
and a parenthesis pair, so the fuel chosen by `SymbolicExpr.parse` always
suffices and the fuel-exhaustion branch is unreachable (`parse` is proved
total below). -/
def parseFuel : Nat → List Char → Except TensorError SymbolicExpr
  | 0, _ => .error (.ComputationError "parse fuel exhausted")
  | fuel + 1, input0 =>
    let input := rustTrim input0
    if input.isEmpty then .ok .Zero
    else if input = ['0'] then .ok .Zero
    else if input = ['1'] then .ok .One
    else
      match parseF64 input with
      | some val => .ok (.Constant val)
      | none =>
        if input.all isIdentChar then .ok (.Variable (String.mk input))
        else
          match powMatch input with
          | some idExp =>
              .ok (.Power (.Variable (String.mk idExp.1)) (.Constant (F64.ofNat idExp.2)))
          | none =>
            match funcMatch input with
            | some nameArgs =>
                if nameArgs.2.isEmpty then .ok (.Function (String.mk nameArgs.1) [])
                else do
                  let args ← parseArgs fuel (splitOnComma nameArgs.2)
                  .ok (.Function (String.mk nameArgs.1) args)
            | none => .ok (.Variable (String.mk input))

/-- Recursive parsing of the comma-split argument texts (the `for arg in
args_str.split(',')` loop of `parse`); each argument is trimmed and parsed,
the first error aborting the loop (no error ever occurs, as proved below). -/
def parseArgs : Nat → List (List Char) → Except TensorError (List SymbolicExpr)
  | _, [] => .ok []
  | 0, _ :: _ => .error (.ComputationError "parse fuel exhausted")
  | fuel + 1, a :: rest => do
    let e ← parseFuel fuel (rustTrim a)
    let es ← parseArgs fuel rest
    .ok (e :: es)

end

/-- Expression parser of `src/symbolic.rs` (`SymbolicExpr::parse`).  The fuel
`input.length + 1` strictly dominates the recursion depth. -/
def SymbolicExpr.parse (input : String) : Except TensorError SymbolicExpr :=
  parseFuel (input.length + 1) input.toList

/-- Type alias of `src/tensor.rs`: `MetricTensor = Vec<Vec<SymbolicExpr>>`. -/
abbrev MetricTensor := List (List SymbolicExpr)

/-- Type alias `ChristoffelSymbols = Vec<Vec<Vec<SymbolicExpr>>>`. -/
abbrev ChristoffelSymbols := List (List (List SymbolicExpr))

/-- Type alias `RiemannTensor = Vec<Vec<Vec<Vec<SymbolicExpr>>>>`. -/
abbrev RiemannTensor := List (List (List (List SymbolicExpr)))

/-- Sparse tensor entry of `src/tensor.rs` (`struct TensorComponent`). -/
structure TensorComponent where
  indices : List Nat
  expression : String
deriving DecidableEq, Repr

/-- Result of the Christoffel stage (`struct ChristoffelResult`). -/
structure ChristoffelResult where
  symbols : List TensorComponent
  dimension : Nat
deriving DecidableEq, Repr

/-- Result shape shared by the Riemann, Ricci and Einstein stages
(`struct RiemannResult`). -/
structure RiemannResult where
  components : List TensorComponent
  dimension : Nat
deriving DecidableEq, Repr

/-- Rust `Vec` indexing `m[i][j]`.  The pipeline only indexes within bounds
(all loops range over the metric dimension); out-of-range access, which would
panic in Rust, is totalised with the `Zero` defaults of the dense tensors. -/
def mAt (m : MetricTensor) (i j : Nat) : SymbolicExpr := (m.getD i []).getD j .Zero

/-- Rust `Vec` indexing `t[i][j][k]` with the same convention as `mAt`. -/
def cAt (t : ChristoffelSymbols) (i j k : Nat) : SymbolicExpr :=
  ((t.getD i []).getD j []).getD k .Zero

/-- Rust `Vec` indexing `t[i][j][k][l]` with the same convention as `mAt`. -/
def rAt (t : RiemannTensor) (i j k l : Nat) : SymbolicExpr :=
  (((t.getD i []).getD j []).getD k []).getD l .Zero

/-- Rust indexing `coords[i]`; the pipeline always passes indices below the
coordinate count. -/
def coordAt (coords : List String) (i : Nat) : String := coords.getD i ""

/-- In-place update `m[i][j] = e` on a nested list. -/
def set2 (m : MetricTensor) (i j : Nat) (e : SymbolicExpr) : MetricTensor :=
  m.set i ((m.getD i []).set j e)

/-- In-place update `t[i][j][k] = e` on a nested list. -/
def set3 (t : ChristoffelSymbols) (i j k : Nat) (e : SymbolicExpr) : ChristoffelSymbols :=
  t.set i (set2 (t.getD i []) j k e)

/-- In-place update `t[i][j][k][l] = e` on a nested list. -/
def set4 (t : RiemannTensor) (i j k l : Nat) (e : SymbolicExpr) : RiemannTensor :=
  t.set i (set3 (t.getD i []) j k l e)

/-- Translation of `parse_metric_tensor`: a row whose length differs from the
row count aborts with `InvalidMetric` before any cell is parsed. -/
def parse_metric_row (n : Nat) : List String → Except TensorError (List SymbolicExpr)
  | [] => .ok []
  | expr_str :: rest => do
    let expr ← (SymbolicExpr.parse expr_str).mapError
      (fun _ => TensorError.InvalidMetric ("Failed to parse expression " ++ expr_str))
    let parsed ← parse_metric_row n rest
    .ok (expr :: parsed)

/-- Row-by-row parsing loop of `parse_metric_tensor` (the Rust `map_err`
message interpolates the unparsable cell and the inner error; the branch is
unreachable because `parse` is total, so only its shape is modelled). -/
def parse_metric_rows (n : Nat) : List (List String) → Except TensorError MetricTensor
  | [] => .ok []
  | row :: rest => do
    let parsed_row ← parse_metric_row n row
    let parsed ← parse_metric_rows n rest
    .ok (parsed_row :: parsed)

/-- Translation of `parse_metric_tensor` from `src/tensor.rs`: validate
squareness, then parse every cell. -/
def parse_metric_tensor (metric_strings : List (List String)) (_coords : List String) :
    Except TensorError MetricTensor :=
  let n := metric_strings.length
  if metric_strings.any (fun row => row.length ≠ n) then
    .error (.InvalidMetric "Metric tensor must be square")
  else
    parse_metric_rows n metric_strings

/-- Translation of `calculate_metric_inverse` from `src/tensor.rs`: the
closed-form symbolic 2×2 inverse, and the documented identity placeholder for
any other dimension. -/
def calculate_metric_inverse (metric : MetricTensor) : Except TensorError MetricTensor :=
  let n := metric.length
  if n = 2 then
    let det : SymbolicExpr :=
      .Subtract (.Multiply (mAt metric 0 0) (mAt metric 1 1))
        (.Multiply (mAt metric 0 1) (mAt metric 1 0))
    let inv_det : SymbolicExpr := .Divide .One det
    .ok
      [[.Multiply inv_det (mAt metric 1 1),
        .Multiply inv_det (.Subtract .Zero (mAt metric 0 1))],
       [.Multiply inv_det (.Subtract .Zero (mAt metric 1 0)),
        .Multiply inv_det (mAt metric 0 0)]]
  else
    .ok ((List.range n).foldl (fun identity i => set2 identity i i .One)
      (List.replicate n (List.replicate n .Zero)))

/-- Summand `g^{μν} (∂_α g_{νβ} + ∂_β g_{να} − ∂_ν g_{αβ})` of the innermost
(`ν`) loop of `calculate_christoffel_symbols` (the Rust locals
`d_g_nu_beta_d_alpha`, `d_g_nu_alpha_d_beta`, `d_g_alpha_beta_d_nu`, `sum`
and `term`). -/
def christoffel_term (metric_inv metric : MetricTensor) (coords : List String)
    (mu alpha beta nu : Nat) : SymbolicExpr :=
  .Multiply (mAt metric_inv mu nu)
    (.Subtract
      (.Add ((mAt metric nu beta).derivative (coordAt coords alpha))
        ((mAt metric nu alpha).derivative (coordAt coords beta)))
      ((mAt metric alpha beta).derivative (coordAt coords nu)))

/-- Unsimplified Christoffel expression
`½ Σ_ν g^{μν} (∂_α g_{νβ} + ∂_β g_{να} − ∂_ν g_{αβ})` built by the innermost
loop of `calculate_christoffel_symbols`, including the exact association of
the accumulating `Add` chain. -/
def christoffel_expr_at (metric_inv metric : MetricTensor) (coords : List String)
    (n mu alpha beta : Nat) : SymbolicExpr :=
  .Multiply (.Constant ⟨1, 2⟩)
    ((List.range n).foldl
      (fun christoffel_expr nu =>
        .Add christoffel_expr (christoffel_term metric_inv metric coords mu alpha beta nu))
      .Zero)

/-- Translation of `calculate_christoffel_symbols` from `src/tensor.rs`:
triple loop over `(μ, α, β)`, simplification, and the sparse nonzero-only
filter. -/
def calculate_christoffel_symbols (metric : MetricTensor) (coords : List String) :
    Except TensorError ChristoffelResult := do
  let n := metric.length
  let metric_inv ← calculate_metric_inverse metric
  let symbols := (List.range n).flatMap (fun mu =>
    (List.range n).flatMap (fun alpha =>
      (List.range n).filterMap (fun beta =>
        let simplified := (christoffel_expr_at metric_inv metric coords n mu alpha beta).simplify
        if !simplified.is_zero then
          some { indices := [mu, alpha, beta], expression := simplified.toStr }
        else none)))
  .ok { symbols := symbols, dimension := n }

/-- Translation of `symbols_to_tensor`: reinflate the sparse Christoffel list
into a dense `n×n×n` tensor (unlisted entries `Zero`), re-parsing each stored
expression string; entries whose index tuple is not a triple, or whose text
fails to parse, are skipped (both unreachable for pipeline-produced input). -/
def symbols_to_tensor (christoffel_result : ChristoffelResult) (n : Nat) : ChristoffelSymbols :=
  christoffel_result.symbols.foldl
    (fun tensor component =>
      match component.indices with
      | [i, j, k] =>
          match SymbolicExpr.parse component.expression with
          | .ok expr => set3 tensor i j k expr
          | .error _ => tensor
      | _ => tensor)
    (List.replicate n (List.replicate n (List.replicate n .Zero)))

/-- Quadratic summand `Γ^ρ_{λμ} Γ^λ_{σν} − Γ^ρ_{λν} Γ^λ_{σμ}` of the `λ`
loop of `calculate_riemann_tensor` (the Rust locals `term1` and `term2`). -/
def riemann_quad_term (christoffel : ChristoffelSymbols) (rho sigma mu nu lambda : Nat) :
    SymbolicExpr :=
  .Subtract
    (.Multiply (cAt christoffel rho lambda mu) (cAt christoffel lambda sigma nu))
    (.Multiply (cAt christoffel rho lambda nu) (cAt christoffel lambda sigma mu))

/-- Unsimplified Riemann expression
`∂_μ Γ^ρ_{σν} − ∂_ν Γ^ρ_{σμ} + Σ_λ (Γ^ρ_{λμ} Γ^λ_{σν} − Γ^ρ_{λν} Γ^λ_{σμ})`
built by the inner loops of `calculate_riemann_tensor`, with the exact `Add`
chain of the Rust accumulator (which is seeded with `Zero` and first receives
the derivative difference). -/
def riemann_expr_at (christoffel : ChristoffelSymbols) (coords : List String)
    (n rho sigma mu nu : Nat) : SymbolicExpr :=
  (List.range n).foldl
    (fun riemann_expr lambda =>
      .Add riemann_expr (riemann_quad_term christoffel rho sigma mu nu lambda))
    (.Add .Zero
      (.Subtract ((cAt christoffel rho sigma nu).derivative (coordAt coords mu))
        ((cAt christoffel rho sigma mu).derivative (coordAt coords nu))))

/-- Translation of `calculate_riemann_tensor` from `src/tensor.rs`. -/
def calculate_riemann_tensor (metric : MetricTensor) (coords : List String) :
    Except TensorError RiemannResult := do
  let n := metric.length
  let christoffel_result ← calculate_christoffel_symbols metric coords
  let christoffel := symbols_to_tensor christoffel_result n
  let components := (List.range n).flatMap (fun rho =>
    (List.range n).flatMap (fun sigma =>
      (List.range n).flatMap (fun mu =>
        (List.range n).filterMap (fun nu =>
          let simplified := (riemann_expr_at christoffel coords n rho sigma mu nu).simplify
          if !simplified.is_zero then
            some { indices := [rho, sigma, mu, nu], expression := simplified.toStr }
          else none))))
  .ok { components := components, dimension := n }

/-- Translation of `riemann_result_to_tensor`: reinflate the sparse Riemann
list into a dense `n⁴` tensor by re-parsing stored text. -/
def riemann_result_to_tensor (riemann_result : RiemannResult) (n : Nat) : RiemannTensor :=
  riemann_result.components.foldl
    (fun tensor component =>
      match component.indices with
      | [i, j, k, l] =>
          match SymbolicExpr.parse component.expression with
          | .ok expr => set4 tensor i j k l expr
          | .error _ => tensor
      | _ => tensor)
    (List.replicate n (List.replicate n (List.replicate n (List.replicate n .Zero))))

/-- Unsimplified Ricci contraction `Σ_ρ R^ρ_{μρν}` of
`calculate_ricci_tensor`. -/
def ricci_expr_at (riemann : RiemannTensor) (n mu nu : Nat) : SymbolicExpr :=
  (List.range n).foldl
    (fun ricci_expr rho => .Add ricci_expr (rAt riemann rho mu rho nu))
    .Zero

/-- Translation of `calculate_ricci_tensor` from `src/tensor.rs`. -/
def calculate_ricci_tensor (metric : MetricTensor) (coords : List String) :
    Except TensorError RiemannResult := do
  let n := metric.length
  let riemann_result ← calculate_riemann_tensor metric coords
  let riemann := riemann_result_to_tensor riemann_result n
  let components := (List.range n).flatMap (fun mu =>
    (List.range n).filterMap (fun nu =>
      let simplified := (ricci_expr_at riemann n mu nu).simplify
      if !simplified.is_zero then
        some { indices := [mu, nu], expression := simplified.toStr }
      else none))
  .ok { components := components, dimension := n }

/-- Translation of `ricci_result_to_matrix`: reinflate the sparse Ricci list
into a dense `n×n` matrix by re-parsing stored text. -/
def ricci_result_to_matrix (ricci_result : RiemannResult) (n : Nat) : MetricTensor :=
  ricci_result.components.foldl
    (fun matrix component =>
      match component.indices with
      | [i, j] =>
          match SymbolicExpr.parse component.expression with
          | .ok expr => set2 matrix i j expr
          | .error _ => matrix
      | _ => matrix)
    (List.replicate n (List.replicate n .Zero))

/-- Unsimplified Ricci scalar `Σ_{μν} g^{μν} R_{μν}` accumulated by the double
loop of `calculate_ricci_scalar`. -/
def ricci_scalar_expr (metric_inv ricci : MetricTensor) (n : Nat) : SymbolicExpr :=
  (List.range n).foldl
    (fun acc mu =>
      (List.range n).foldl
        (fun scalar_expr nu =>
          .Add scalar_expr (.Multiply (mAt metric_inv mu nu) (mAt ricci mu nu)))
        acc)
    .Zero

/-- Translation of `calculate_ricci_scalar` from `src/tensor.rs`: unlike the
other stages it always returns exactly one component, with an empty index
tuple, whether or not the scalar is zero. -/
def calculate_ricci_scalar (metric : MetricTensor) (coords : List String) :
    Except TensorError TensorComponent := do
  let n := metric.length
  let ricci_result ← calculate_ricci_tensor metric coords
  let ricci := ricci_result_to_matrix ricci_result n
  let metric_inv ← calculate_metric_inverse metric
  let simplified := (ricci_scalar_expr metric_inv ricci n).simplify
  .ok { indices := [], expression := simplified.toStr }

/-- Unsimplified Einstein expression `R_{μν} − ½ g_{μν} R` of
`calculate_einstein_tensor`. -/
def einstein_expr_at (metric ricci : MetricTensor) (ricci_scalar_expr : SymbolicExpr)
    (mu nu : Nat) : SymbolicExpr :=
  .Subtract (mAt ricci mu nu)
    (.Multiply (.Constant ⟨1, 2⟩) (.Multiply (mAt metric mu nu) ricci_scalar_expr))

/-- Translation of `calculate_einstein_tensor` from `src/tensor.rs`,
including the re-parse of the Ricci scalar's rendered text. -/
def calculate_einstein_tensor (metric : MetricTensor) (coords : List String) :
    Except TensorError RiemannResult := do
  let n := metric.length
  let ricci_result ← calculate_ricci_tensor metric coords
  let ricci := ricci_result_to_matrix ricci_result n
  let ricci_scalar ← calculate_ricci_scalar metric coords
  let scalar_expr ← (SymbolicExpr.parse ricci_scalar.expression).mapError
    (fun _ => TensorError.ComputationError "Failed to parse Ricci scalar")
  let components := (List.range n).flatMap (fun mu =>
    (List.range n).filterMap (fun nu =>
      let simplified := (einstein_expr_at metric ricci scalar_expr mu nu).simplify
      if !simplified.is_zero then
        some { indices := [mu, nu], expression := simplified.toStr }
      else none))
  .ok { components := components, dimension := n }

/-- Helper extracting the expression from the total parser (used only to
state concrete metrics built, as in `src/einstein.rs`, through
`SymbolicExpr::parse("...")?`; the error branch is unreachable). -/
def parseExpr (s : String) : SymbolicExpr :=
  match SymbolicExpr.parse s with
  | .ok e => e
  | .error _ => .Zero

/-- Schwarzschild metric of `solve_spherically_symmetric_vacuum`
(`src/einstein.rs`): a 4×4 diagonal metric whose entries are parsed from the
exact source strings; per the grammar the two non-polynomial diagonal entries
and the `r² sin²θ` entry degrade to opaque `Variable` tokens, while `r^2`
parses structurally. -/
def schwarzschild_metric : MetricTensor :=
  [[parseExpr "-(1 - 2*M/r)", .Zero, .Zero, .Zero],
   [.Zero, parseExpr "1/(1 - 2*M/r)", .Zero, .Zero],
   [.Zero, .Zero, parseExpr "r^2", .Zero],
   [.Zero, .Zero, .Zero, parseExpr "r^2 * sin(theta)^2"]]

/-- Coordinates used with the Schwarzschild metric. -/
def schwarzschild_coords : List String := ["t", "r", "theta", "phi"]

/-- Concrete one-dimensional fixture metric `[[x]]` used to exercise the
sparse-emission characterisation on a run with nonzero components. -/
def unit_metric : MetricTensor := [[.Variable "x"]]

/-- Coordinates for `unit_metric`. -/
def unit_coords : List String := ["x"]

/-- The single Christoffel component text produced by the pipeline on
`unit_metric`. -/
def unit_gamma_str : String := "(0.5 * ((1 + 1) - 1))"

/-- The single Riemann/Ricci/Ricci-scalar component text produced by the
pipeline on `unit_metric` (the quadratic terms do not cancel because the
re-parsed Christoffel text is an opaque variable). -/
def unit_riemann_str : String :=
  "(((0.5 * ((1 + 1) - 1)) * (0.5 * ((1 + 1) - 1))) - ((0.5 * ((1 + 1) - 1)) * (0.5 * ((1 + 1) - 1))))"

/-- The single Einstein component text produced by the pipeline on
`unit_metric`. -/
def unit_einstein_str : String :=
  "((((0.5 * ((1 + 1) - 1)) * (0.5 * ((1 + 1) - 1))) - ((0.5 * ((1 + 1) - 1)) * (0.5 * ((1 + 1) - 1)))) - (0.5 * (x * (((0.5 * ((1 + 1) - 1)) * (0.5 * ((1 + 1) - 1))) - ((0.5 * ((1 + 1) - 1)) * (0.5 * ((1 + 1) - 1)))))))"

/-- Christoffel stage output on `unit_metric`. -/
def unit_cr : ChristoffelResult := ⟨[⟨[0, 0, 0], unit_gamma_str⟩], 1⟩

/-- Riemann stage output on `unit_metric`. -/
def unit_rr : RiemannResult := ⟨[⟨[0, 0, 0, 0], unit_riemann_str⟩], 1⟩

/-- Ricci stage output on `unit_metric`. -/
def unit_ric : RiemannResult := ⟨[⟨[0, 0], unit_riemann_str⟩], 1⟩

/-- Ricci-scalar stage output on `unit_metric`. -/
def unit_sc : TensorComponent := ⟨[], unit_riemann_str⟩

/-- Einstein stage output on `unit_metric`. -/
def unit_er : RiemannResult := ⟨[⟨[0, 0], unit_einstein_str⟩], 1⟩

end TensorCalc

deriving instance DecidableEq for Except

namespace TensorCalc

theorem simplify_Add (l r : SymbolicExpr) :
    (SymbolicExpr.Add l r).simplify = simplifyAdd l.simplify r.simplify := rfl

theorem simplify_Sub (l r : SymbolicExpr) :
    (SymbolicExpr.Subtract l r).simplify = simplifySub l.simplify r.simplify := rfl

theorem simplify_Mul (l r : SymbolicExpr) :
    (SymbolicExpr.Multiply l r).simplify = simplifyMul l.simplify r.simplify := rfl

theorem simplify_Div (l r : SymbolicExpr) :
    (SymbolicExpr.Divide l r).simplify = simplifyDiv l.simplify r.simplify := rfl

theorem simplify_Pow (b e : SymbolicExpr) :
    (SymbolicExpr.Power b e).simplify = simplifyPow b.simplify e.simplify := rfl

theorem simplify_Zero : SymbolicExpr.Zero.simplify = .Zero := rfl

theorem simplify_One : SymbolicExpr.One.simplify = .One := rfl

theorem simplify_Constant (c : F64) : (SymbolicExpr.Constant c).simplify = .Constant c := rfl

theorem simplifyMul_zero_right (x : SymbolicExpr) : simplifyMul x .Zero = .Zero := by
  cases x <;> rfl

theorem simplifyMul_zero_left (x : SymbolicExpr) : simplifyMul .Zero x = .Zero := by
  cases x <;> rfl

theorem simplifySub_zero_right (x : SymbolicExpr) : simplifySub x .Zero = x := by
  cases x <;> rfl

theorem simplifyAdd_zero_left (x : SymbolicExpr) : simplifyAdd .Zero x = x := by
  cases x <;> rfl

theorem simplifyAdd_fix {l r : SymbolicExpr}
    (hl : l.simplify = l) (hr : r.simplify = r) :
    (simplifyAdd l r).simplify = simplifyAdd l r := by
  cases l <;> cases r <;> simp only [simplifyAdd] <;>
    first
      | exact hl
      | exact hr
      | rfl
      | (rw [simplify_Add, hl, hr]; rfl)

theorem simplifySub_fix {l r : SymbolicExpr}
    (hl : l.simplify = l) (hr : r.simplify = r) :
    (simplifySub l r).simplify = simplifySub l r := by
  cases l <;> cases r <;> simp only [simplifySub] <;>
    first
      | exact hl
      | exact hr
      | rfl
      | (rw [simplify_Sub, hl, hr]; rfl)

theorem simplifyMul_fix {l r : SymbolicExpr}
    (hl : l.simplify = l) (hr : r.simplify = r) :
    (simplifyMul l r).simplify = simplifyMul l r := by
  cases l <;> cases r <;> simp only [simplifyMul] <;>
    first
      | exact hl
      | exact hr
      | rfl
      | (rw [simplify_Mul, hl, hr]; rfl)

theorem simplifyDiv_fix {l r : SymbolicExpr}
    (hl : l.simplify = l) (hr : r.simplify = r) :
    (simplifyDiv l r).simplify = simplifyDiv l r := by
  cases l <;> cases r <;> simp only [simplifyDiv] <;>
    first
      | exact hl
      | exact hr
      | rfl
      | (rw [simplify_Div, hl, hr]; rfl)
      | (split <;> rename_i h <;>
          first
            | rfl
            | (simp only [simplify_Div, simplify_Constant, simplifyDiv]; rw [if_neg h]))

theorem simplifyPow_fix {l r : SymbolicExpr}
    (hl : l.simplify = l) (hr : r.simplify = r) :
    (simplifyPow l r).simplify = simplifyPow l r := by
  cases l <;> cases r <;> simp only [simplifyPow] <;>
    first
      | exact hl
      | exact hr
      | rfl
      | (rw [simplify_Pow, hl, hr]; rfl)

/-- Idempotence of `simplify` up to structural identity of the expression
tree: a second pass over an already simplified expression returns its
argument unchanged. -/
theorem simplify_idem (e : SymbolicExpr) : e.simplify.simplify = e.simplify := by
  induction e using SymbolicExpr.inductionOn with
  | hvar s => rfl
  | hconst c => rfl
  | hadd a b iha ihb => exact simplifyAdd_fix iha ihb
  | hsub a b iha ihb => exact simplifySub_fix iha ihb
  | hmul a b iha ihb => exact simplifyMul_fix iha ihb
  | hdiv a b iha ihb => exact simplifyDiv_fix iha ihb
  | hpow a b iha ihb => exact simplifyPow_fix iha ihb
  | hfun s args ih => rfl
  | hzero => rfl
  | hone => rfl

theorem rustEqArgs_refl (as : List SymbolicExpr)
    (ih : ∀ x ∈ as, x.noNan = true → SymbolicExpr.rustEq x x = true)
    (h : SymbolicExpr.noNan.noNanArgs as = true) :
    SymbolicExpr.rustEq.rustEqArgs as as = true := by
  induction as with
  | nil => rfl
  | cons x xs ihl =>
    simp only [SymbolicExpr.noNan.noNanArgs, Bool.and_eq_true] at h
    simp only [SymbolicExpr.rustEq.rustEqArgs, Bool.and_eq_true]
    exact ⟨ih x (List.mem_cons_self x xs) h.1,
      ihl (fun y hy => ih y (List.mem_cons_of_mem x hy)) h.2⟩

/-- The program's `==` is reflexive exactly off NaN: any expression free of
NaN constants compares equal to itself under the derived `PartialEq`. -/
theorem rustEq_refl_of_noNan : ∀ e : SymbolicExpr, e.noNan = true →
    SymbolicExpr.rustEq e e = true := by
  intro e
  induction e using SymbolicExpr.inductionOn with
  | hvar s => intro _; simp [SymbolicExpr.rustEq]
  | hconst c =>
    intro h
    simp only [SymbolicExpr.noNan, Bool.not_eq_eq_eq_not, Bool.not_true] at h
    simp [SymbolicExpr.rustEq, F64.eq, h]
  | hadd a b iha ihb =>
    intro h
    simp only [SymbolicExpr.noNan, Bool.and_eq_true] at h
    simp [SymbolicExpr.rustEq, iha h.1, ihb h.2]
  | hsub a b iha ihb =>
    intro h
    simp only [SymbolicExpr.noNan, Bool.and_eq_true] at h
    simp [SymbolicExpr.rustEq, iha h.1, ihb h.2]
  | hmul a b iha ihb =>
    intro h
    simp only [SymbolicExpr.noNan, Bool.and_eq_true] at h
    simp [SymbolicExpr.rustEq, iha h.1, ihb h.2]
  | hdiv a b iha ihb =>
    intro h
    simp only [SymbolicExpr.noNan, Bool.and_eq_true] at h
    simp [SymbolicExpr.rustEq, iha h.1, ihb h.2]
  | hpow a b iha ihb =>
    intro h
    simp only [SymbolicExpr.noNan, Bool.and_eq_true] at h
    simp [SymbolicExpr.rustEq, iha h.1, ihb h.2]
  | hfun s args ih =>
    intro h
    simp only [SymbolicExpr.noNan] at h
    simp only [SymbolicExpr.rustEq, Bool.and_eq_true, beq_self_eq_true, true_and]
    exact rustEqArgs_refl args ih h
  | hzero => intro _; rfl
  | hone => intro _; rfl

/-- Counterexample to C2 as stated: the program's `==` (derived `PartialEq`,
comparing `Constant` fields with `f64 ==`) is irreflexive on NaN, and
`Constant(NaN)` is reachable — `parse("NaN")` produces it — so
`simplify(simplify(e)) == simplify(e)` is false at `e = Constant(NaN)` even
though both sides are the same tree. -/
theorem C2_counterexample :
    SymbolicExpr.parse "NaN" = .ok (.Constant F64.nan) ∧
    SymbolicExpr.rustEq (SymbolicExpr.Constant F64.nan).simplify.simplify
      (SymbolicExpr.Constant F64.nan).simplify = false :=
  ⟨by decide, by decide⟩

/-- C2 as amended: `simplify` is idempotent up to structural identity —
`simplify(simplify(e))` is the very same tree as `simplify(e)` for every
expression — and consequently the program's `==` comparison
`simplify(simplify(e)) == simplify(e)` also holds whenever `simplify(e)`
contains no NaN constant; it fails exactly through NaN's irreflexivity, never
through the second pass changing the tree. -/
theorem C2_amended_simplify_idempotent :
    (∀ e : SymbolicExpr, e.simplify.simplify = e.simplify) ∧
    (∀ e : SymbolicExpr, e.simplify.noNan = true →
      SymbolicExpr.rustEq e.simplify.simplify e.simplify = true) :=
  ⟨simplify_idem, fun e hn => by
    rw [simplify_idem e]
    exact rustEq_refl_of_noNan _ hn⟩

/-- Witness for C2 at the concrete NaN-free input
`Constant(0.5) + Constant(0.5)` (which simplifies to `Constant(1.0)`). -/
theorem C2_witness :
    (SymbolicExpr.Add (.Constant ⟨1, 2⟩) (.Constant ⟨1, 2⟩)).simplify.simplify =
      (SymbolicExpr.Add (.Constant ⟨1, 2⟩) (.Constant ⟨1, 2⟩)).simplify ∧
    SymbolicExpr.rustEq
      (SymbolicExpr.Add (.Constant ⟨1, 2⟩) (.Constant ⟨1, 2⟩)).simplify.simplify
      (SymbolicExpr.Add (.Constant ⟨1, 2⟩) (.Constant ⟨1, 2⟩)).simplify = true :=
  ⟨C2_amended_simplify_idempotent.1 (SymbolicExpr.Add (.Constant ⟨1, 2⟩) (.Constant ⟨1, 2⟩)),
    C2_amended_simplify_idempotent.2 (SymbolicExpr.Add (.Constant ⟨1, 2⟩) (.Constant ⟨1, 2⟩))
      (by decide)⟩

/-- C5: the power rule fires only on a `Constant` exponent; for every other
exponent shape the derivative of `Power(base, exp)` is the `Zero` sentinel. -/
theorem C5_derivative_power_nonconstant_exponent (b e : SymbolicExpr) (v : String)
    (h : ∀ c : F64, e ≠ .Constant c) :
    (SymbolicExpr.Power b e).derivative v = .Zero := by
  cases e <;> first
    | rfl
    | exact absurd rfl (h _)

/-- Witness for C5 at the concrete input `Power(Variable "x", Variable "y")`
differentiated with respect to `x`. -/
theorem C5_witness :
    (SymbolicExpr.Power (.Variable "x") (.Variable "y")).derivative "x" = .Zero :=
  C5_derivative_power_nonconstant_exponent (.Variable "x") (.Variable "y") "x"
    (fun _ h => SymbolicExpr.noConfusion h)

/-- C9: the annihilator rule of `simplify` matches only the `Zero` sentinel,
so `Variable(v) * Constant(0.0)` is returned unchanged even though
`is_zero(Constant(0.0))` holds. -/
theorem C9_constant_zero_not_annihilated (v : String) :
    (SymbolicExpr.Multiply (.Variable v) (.Constant ⟨0, 1⟩)).simplify =
      .Multiply (.Variable v) (.Constant ⟨0, 1⟩) ∧
    (SymbolicExpr.Constant ⟨0, 1⟩).is_zero = true :=
  ⟨rfl, rfl⟩

/-- C10: the power rule does not recognise the `One` sentinel as a constant
exponent: the derivative of `Power(b, One)` is `Zero`, not the derivative of
`b`. -/
theorem C10_derivative_power_one_sentinel (b : SymbolicExpr) (v : String) :
    (SymbolicExpr.Power b .One).derivative v = .Zero := rfl

theorem length_dropWhile_le {α : Type} (p : α → Bool) :
    ∀ l : List α, (l.dropWhile p).length ≤ l.length
  | [] => le_refl _
  | c :: t => by
    simp only [List.dropWhile]
    split
    · exact le_trans (length_dropWhile_le p t) (Nat.le_succ _)
    · exact le_refl _

theorem rustTrim_length_le (l : List Char) : (rustTrim l).length ≤ l.length := by
  unfold rustTrim
  rw [List.length_reverse]
  calc ((l.dropWhile Char.isWhitespace).reverse.dropWhile Char.isWhitespace).length
      ≤ (l.dropWhile Char.isWhitespace).reverse.length := length_dropWhile_le _ _
    _ = (l.dropWhile Char.isWhitespace).length := List.length_reverse _
    _ ≤ l.length := length_dropWhile_le _ _

theorem splitOnComma_ne_nil : ∀ l : List Char, splitOnComma l ≠ []
  | [] => by simp [splitOnComma]
  | c :: t => by
    simp only [splitOnComma]
    split
    · simp
    · split
      · simp
      · simp

theorem splitOnComma_sum : ∀ l : List Char,
    ((splitOnComma l).map List.length).sum + (splitOnComma l).length = l.length + 1
  | [] => by simp [splitOnComma]
  | c :: t => by
    have ih := splitOnComma_sum t
    simp only [splitOnComma]
    split
    · simp only [List.map_cons, List.sum_cons, List.length_cons, List.length_nil]
      omega
    · obtain ⟨h, r, hS⟩ := List.exists_cons_of_ne_nil (splitOnComma_ne_nil t)
      rw [hS] at ih ⊢
      simp only [List.map_cons, List.sum_cons, List.length_cons] at ih ⊢
      omega

theorem funcMatch_length {l : List Char} {p : List Char × List Char}
    (h : funcMatch l = some p) : p.2.length + 3 ≤ l.length := by
  have hsplit : (l.takeWhile isIdentChar).length + (l.dropWhile isIdentChar).length = l.length := by
    rw [← List.length_append, List.takeWhile_append_dropWhile]
  unfold funcMatch at h
  split at h
  · rename_i c cs t heq1 heq2
    split at h
    · rename_i heq3
      split at h
      · injection h with h
        subst h
        have ht : t ≠ [] := by
          intro ht
          rw [ht] at heq3
          simp at heq3
        rw [heq1, heq2] at hsplit
        simp only [List.length_cons] at hsplit
        have hdl : t.dropLast.length = t.length - 1 := List.length_dropLast t
        have htl : 1 ≤ t.length := List.length_pos.mpr ht
        simp only [hdl]
        omega
      · exact absurd h (by simp)
    · exact absurd h (by simp)
  · exact absurd h (by simp)

theorem parse_ok_aux : ∀ fuel : Nat,
    (∀ l : List Char, l.length < fuel → ∃ e, parseFuel fuel l = .ok e) ∧
    (∀ as : List (List Char), (as.map List.length).sum + as.length + 1 ≤ fuel →
      ∃ es, parseArgs fuel as = .ok es) := by
  intro fuel
  induction fuel using Nat.strong_induction_on with
  | _ fuel ih =>
    constructor
    · intro l hl
      cases fuel with
      | zero => omega
      | succ f =>
        simp only [parseFuel]
        split
        · exact ⟨_, rfl⟩
        · split
          · exact ⟨_, rfl⟩
          · split
            · exact ⟨_, rfl⟩
            · split
              · exact ⟨_, rfl⟩
              · split
                · exact ⟨_, rfl⟩
                · split
                  · exact ⟨_, rfl⟩
                  · split
                    · rename_i nameArgs hfm
                      split
                      · exact ⟨_, rfl⟩
                      · have hlen := funcMatch_length hfm
                        have htr := rustTrim_length_le l
                        have hsum := splitOnComma_sum nameArgs.2
                        have harith :
                            (((splitOnComma nameArgs.2).map List.length).sum +
                              (splitOnComma nameArgs.2).length) + 1 ≤ f := by omega
                        obtain ⟨es, hes⟩ :=
                          (ih f (Nat.lt_succ_self f)).2 (splitOnComma nameArgs.2) harith
                        exact ⟨_, by rw [hes]; rfl⟩
                    · exact ⟨_, rfl⟩
    · intro as has
      cases as with
      | nil =>
        cases fuel with
        | zero => exact ⟨[], rfl⟩
        | succ f => exact ⟨[], rfl⟩
      | cons a rest =>
        cases fuel with
        | zero =>
          simp only [List.map_cons, List.sum_cons, List.length_cons] at has
          omega
        | succ f =>
          simp only [List.map_cons, List.sum_cons, List.length_cons] at has
          have htr := rustTrim_length_le a
          obtain ⟨e, he⟩ := (ih f (Nat.lt_succ_self f)).1 (rustTrim a) (by omega)
          obtain ⟨es, hes⟩ := (ih f (Nat.lt_succ_self f)).2 rest (by omega)
          exact ⟨e :: es, by simp only [parseArgs]; rw [he, hes]; rfl⟩

/-- Totality of the expression parser: every input string parses to `Ok`. -/
theorem parse_ok (s : String) : ∃ e, SymbolicExpr.parse s = .ok e :=
  (parse_ok_aux (s.length + 1)).1 s.toList (Nat.lt_succ_self _)

/-- C4: `parse` is total — every string yields `Ok` of an expression — and it
realises the documented grammar: empty or whitespace text gives `Zero`, the
exact texts `"0"`/`"1"` give the sentinels, a floating literal gives
`Constant`, an identifier gives `Variable`, `name^digits` gives
`Power(Variable, Constant)` (in particular `parse("r^2")`), a single
parenthesis group gives `Function` with recursively parsed arguments (in
particular `parse("sin(theta)")`), and any other text falls back to
`Variable` of the verbatim text. -/
theorem C4_parse_total_grammar :
    (∀ s : String, ∃ e, SymbolicExpr.parse s = .ok e) ∧
    SymbolicExpr.parse "" = .ok .Zero ∧
    SymbolicExpr.parse "  " = .ok .Zero ∧
    SymbolicExpr.parse "0" = .ok .Zero ∧
    SymbolicExpr.parse "1" = .ok .One ∧
    SymbolicExpr.parse "42" = .ok (.Constant ⟨42, 1⟩) ∧
    SymbolicExpr.parse "-2.5" = .ok (.Constant ⟨-5, 2⟩) ∧
    SymbolicExpr.parse "foo_1" = .ok (.Variable "foo_1") ∧
    SymbolicExpr.parse "r^2" = .ok (.Power (.Variable "r") (.Constant ⟨2, 1⟩)) ∧
    SymbolicExpr.parse "sin(theta)" = .ok (.Function "sin" [.Variable "theta"]) ∧
    SymbolicExpr.parse "f(a, 0)" = .ok (.Function "f" [.Variable "a", .Zero]) ∧
    SymbolicExpr.parse "a + b" = .ok (.Variable "a + b") :=
  ⟨parse_ok, by decide, by decide, by decide, by decide, by decide, by decide,
    by decide, by decide, by decide, by decide, by decide⟩

theorem parse_metric_row_ok (n : Nat) :
    ∀ row : List String, ∃ es, parse_metric_row n row = .ok es
  | [] => ⟨[], rfl⟩
  | s :: rest => by
    obtain ⟨e, he⟩ := parse_ok s
    obtain ⟨es, hes⟩ := parse_metric_row_ok n rest
    refine ⟨e :: es, ?_⟩
    simp only [parse_metric_row, he, Except.mapError]
    rw [hes]
    rfl

theorem parse_metric_rows_ok (n : Nat) :
    ∀ rows : List (List String), ∃ m, parse_metric_rows n rows = .ok m
  | [] => ⟨[], rfl⟩
  | row :: rest => by
    obtain ⟨es, hes⟩ := parse_metric_row_ok n row
    obtain ⟨m, hm⟩ := parse_metric_rows_ok n rest
    refine ⟨es :: m, ?_⟩
    simp only [parse_metric_rows]
    rw [hes, hm]
    rfl

/-- C7: a jagged input (some row length differing from the row count) makes
`parse_metric_tensor` return the `InvalidMetric` error value — a controlled
failure, not a crash — while every square input parses to `Ok`. -/
theorem C7_parse_metric_square_validation (metric_strings : List (List String))
    (coords : List String) :
    ((∃ row ∈ metric_strings, row.length ≠ metric_strings.length) →
      parse_metric_tensor metric_strings coords =
        .error (.InvalidMetric "Metric tensor must be square")) ∧
    ((∀ row ∈ metric_strings, row.length = metric_strings.length) →
      ∃ m, parse_metric_tensor metric_strings coords = .ok m) := by
  constructor
  · rintro ⟨row, hmem, hne⟩
    simp only [parse_metric_tensor]
    split
    · rfl
    · rename_i hcond
      exact absurd (List.any_eq_true.mpr ⟨row, hmem, by simpa using hne⟩) hcond
  · intro hall
    simp only [parse_metric_tensor]
    split
    · rename_i hcond
      rw [List.any_eq_true] at hcond
      obtain ⟨row, hmem, hrow⟩ := hcond
      exact absurd (hall row hmem) (by simpa using hrow)
    · exact parse_metric_rows_ok _ _

/-- Witness for C7: the jagged input `[["x", "y"]]` (one row of length two)
fails with `InvalidMetric`, and the square input `[["x"]]` succeeds. -/
theorem C7_witness :
    parse_metric_tensor [["x", "y"]] [] =
      .error (.InvalidMetric "Metric tensor must be square") ∧
    ∃ m, parse_metric_tensor [["x"]] [] = .ok m :=
  ⟨(C7_parse_metric_square_validation [["x", "y"]] []).1
      ⟨["x", "y"], by decide, by decide⟩,
    (C7_parse_metric_square_validation [["x"]] []).2 (by decide)⟩

theorem getD_replicate {α : Type} (x d : α) :
    ∀ (n i : Nat), (List.replicate n x).getD i d = if i < n then x else d := by
  intro n i
  rw [List.getD_eq_getElem?_getD, List.getElem?_replicate]
  split <;> rfl

theorem getD_nil {α : Type} (i : Nat) (d : α) : ([] : List α).getD i d = d := by
  cases i <;> rfl

theorem mAt_zero2 (n i j : Nat) :
    mAt (List.replicate n (List.replicate n .Zero)) i j = .Zero := by
  unfold mAt
  rw [getD_replicate]
  split
  · rw [getD_replicate]; split <;> rfl
  · rw [getD_nil]

theorem cAt_zero3 (n i j k : Nat) :
    cAt (List.replicate n (List.replicate n (List.replicate n .Zero))) i j k = .Zero := by
  unfold cAt
  rw [getD_replicate]
  split
  · rw [getD_replicate]
    split
    · rw [getD_replicate]; split <;> rfl
    · rw [getD_nil]
  · rw [getD_nil, getD_nil]

theorem rAt_zero4 (n i j k l : Nat) :
    rAt (List.replicate n (List.replicate n (List.replicate n (List.replicate n .Zero))))
      i j k l = .Zero := by
  unfold rAt
  rw [getD_replicate]
  split
  · rw [getD_replicate]
    split
    · rw [getD_replicate]
      split
      · rw [getD_replicate]; split <;> rfl
      · rw [getD_nil]
    · rw [getD_nil, getD_nil]
  · rw [getD_nil, getD_nil, getD_nil]

theorem derivative_entry_const_zero {metric : MetricTensor}
    (hconst : ∀ row ∈ metric, ∀ e ∈ row, ∃ c, e = SymbolicExpr.Constant c)
    (i j : Nat) (v : String) : (mAt metric i j).derivative v = .Zero := by
  unfold mAt
  rcases hrow : metric[i]? with _ | row
  · simp only [List.getD_eq_getElem?_getD, hrow, Option.getD_none]
    rfl
  · simp only [List.getD_eq_getElem?_getD, hrow, Option.getD_some]
    rcases hcell : row[j]? with _ | e
    · simp only [hcell, Option.getD_none]
      rfl
    · simp only [hcell, Option.getD_some]
      obtain ⟨c, hc⟩ :=
        hconst row (List.getElem?_mem hrow) e (List.getElem?_mem hcell)
      rw [hc]
      rfl

theorem foldl_add_simplify_zero {α : Type} (f : α → SymbolicExpr) :
    ∀ (l : List α) (acc : SymbolicExpr), acc.simplify = .Zero →
      (∀ x ∈ l, (f x).simplify = .Zero) →
      (l.foldl (fun a x => SymbolicExpr.Add a (f x)) acc).simplify = .Zero
  | [], _, hacc, _ => hacc
  | x :: xs, acc, hacc, hf => by
    simp only [List.foldl_cons]
    refine foldl_add_simplify_zero f xs _ ?_ (fun y hy => hf y (List.mem_cons_of_mem x hy))
    rw [simplify_Add, hacc, hf x (List.mem_cons_self x xs)]
    rfl

theorem foldl2_add_simplify_zero {α β : Type} (f : α → β → SymbolicExpr) (l2 : List β) :
    ∀ (l1 : List α) (acc : SymbolicExpr), acc.simplify = .Zero →
      (∀ x ∈ l1, ∀ y ∈ l2, (f x y).simplify = .Zero) →
      (l1.foldl (fun acc x => l2.foldl (fun a y => SymbolicExpr.Add a (f x y)) acc)
        acc).simplify = .Zero
  | [], _, hacc, _ => hacc
  | x :: xs, acc, hacc, hf => by
    simp only [List.foldl_cons]
    exact foldl2_add_simplify_zero f l2 xs _
      (foldl_add_simplify_zero (f x) l2 acc hacc
        (fun y hy => hf x (List.mem_cons_self x xs) y hy))
      (fun x' hx' y hy => hf x' (List.mem_cons_of_mem x hx') y hy)

theorem calculate_metric_inverse_ok (metric : MetricTensor) :
    ∃ mi, calculate_metric_inverse metric = .ok mi := by
  simp only [calculate_metric_inverse]
  split <;> exact ⟨_, rfl⟩

theorem except_bind_ok {ε α β : Type} (a : α) (f : α → Except ε β) :
    (Except.ok (ε := ε) a >>= f) = f a := rfl

theorem flatMap_eq_nil {α β : Type} (f : α → List β) :
    ∀ l : List α, (∀ x ∈ l, f x = []) → l.flatMap f = []
  | [], _ => rfl
  | x :: xs, h => by
    simp only [List.flatMap_cons, h x (List.mem_cons_self x xs), List.nil_append]
    exact flatMap_eq_nil f xs (fun y hy => h y (List.mem_cons_of_mem x hy))

theorem christoffel_expr_const_zero {metric : MetricTensor}
    (hconst : ∀ row ∈ metric, ∀ e ∈ row, ∃ c, e = SymbolicExpr.Constant c)
    (metric_inv : MetricTensor) (coords : List String) (n mu alpha beta : Nat) :
    (christoffel_expr_at metric_inv metric coords n mu alpha beta).simplify = .Zero := by
  unfold christoffel_expr_at
  rw [simplify_Mul]
  rw [foldl_add_simplify_zero (christoffel_term metric_inv metric coords mu alpha beta)
    (List.range n) .Zero rfl ?_]
  · exact simplifyMul_zero_right _
  · intro nu _
    unfold christoffel_term
    rw [derivative_entry_const_zero hconst, derivative_entry_const_zero hconst,
      derivative_entry_const_zero hconst]
    rw [simplify_Mul, simplify_Sub, simplify_Add, simplify_Zero]
    exact simplifyMul_zero_right _

/-- C1: on a metric whose entries are all `Constant` nodes, every derivative
is `Zero`, so the Christoffel, Riemann and Ricci stages emit empty component
lists and the Ricci scalar renders exactly as `"0"`. -/
theorem C1_constant_metric_pipeline (metric : MetricTensor) (coords : List String)
    (hconst : ∀ row ∈ metric, ∀ e ∈ row, ∃ c, e = SymbolicExpr.Constant c) :
    calculate_christoffel_symbols metric coords = .ok ⟨[], metric.length⟩ ∧
    calculate_riemann_tensor metric coords = .ok ⟨[], metric.length⟩ ∧
    calculate_ricci_tensor metric coords = .ok ⟨[], metric.length⟩ ∧
    calculate_ricci_scalar metric coords = .ok ⟨[], "0"⟩ := by
  obtain ⟨mi, hmi⟩ := calculate_metric_inverse_ok metric
  have hchristoffel : calculate_christoffel_symbols metric coords = .ok ⟨[], metric.length⟩ := by
    simp only [calculate_christoffel_symbols, hmi, except_bind_ok]
    have hnil : (List.range metric.length).flatMap (fun mu =>
        (List.range metric.length).flatMap (fun alpha =>
          (List.range metric.length).filterMap (fun beta =>
            if (!(christoffel_expr_at mi metric coords metric.length mu alpha
                beta).simplify.is_zero) = true then
              some (TensorComponent.mk [mu, alpha, beta]
                (christoffel_expr_at mi metric coords metric.length mu alpha
                  beta).simplify.toStr)
            else none))) = [] := by
      refine flatMap_eq_nil _ _ (fun mu _ => ?_)
      refine flatMap_eq_nil _ _ (fun alpha _ => ?_)
      rw [List.filterMap_eq_nil_iff]
      intro beta _
      rw [christoffel_expr_const_zero hconst]
      rfl
    exact congrArg (fun L => (Except.ok ⟨L, metric.length⟩ :
      Except TensorError ChristoffelResult)) hnil
  have hriemann : calculate_riemann_tensor metric coords = .ok ⟨[], metric.length⟩ := by
    simp only [calculate_riemann_tensor, hchristoffel, except_bind_ok]
    have htensor : symbols_to_tensor ⟨[], metric.length⟩ metric.length =
        List.replicate metric.length (List.replicate metric.length
          (List.replicate metric.length .Zero)) := rfl
    have hz : ∀ rho sigma mu nu,
        (riemann_expr_at (symbols_to_tensor ⟨[], metric.length⟩ metric.length)
          coords metric.length rho sigma mu nu).simplify = .Zero := by
      intro rho sigma mu nu
      rw [htensor]
      unfold riemann_expr_at
      refine foldl_add_simplify_zero _ (List.range metric.length) _ ?_ ?_
      · rw [cAt_zero3, cAt_zero3]
        rfl
      · intro lambda _
        unfold riemann_quad_term
        rw [cAt_zero3, cAt_zero3, cAt_zero3, cAt_zero3]
        rfl
    have hnil : (List.range metric.length).flatMap (fun rho =>
        (List.range metric.length).flatMap (fun sigma =>
          (List.range metric.length).flatMap (fun mu =>
            (List.range metric.length).filterMap (fun nu =>
              if (!(riemann_expr_at (symbols_to_tensor ⟨[], metric.length⟩ metric.length)
                  coords metric.length rho sigma mu nu).simplify.is_zero) = true then
                some (TensorComponent.mk [rho, sigma, mu, nu]
                  (riemann_expr_at
                    (symbols_to_tensor ⟨[], metric.length⟩ metric.length)
                    coords metric.length rho sigma mu nu).simplify.toStr)
              else none)))) = [] := by
      refine flatMap_eq_nil _ _ (fun rho _ => ?_)
      refine flatMap_eq_nil _ _ (fun sigma _ => ?_)
      refine flatMap_eq_nil _ _ (fun mu _ => ?_)
      rw [List.filterMap_eq_nil_iff]
      intro nu _
      rw [hz]
      rfl
    exact congrArg (fun L => (Except.ok ⟨L, metric.length⟩ :
      Except TensorError RiemannResult)) hnil
  have hricci : calculate_ricci_tensor metric coords = .ok ⟨[], metric.length⟩ := by
    simp only [calculate_ricci_tensor, hriemann, except_bind_ok]
    have hz : ∀ mu nu,
        (ricci_expr_at (riemann_result_to_tensor ⟨[], metric.length⟩ metric.length)
          metric.length mu nu).simplify = .Zero := by
      intro mu nu
      unfold ricci_expr_at
      refine foldl_add_simplify_zero _ (List.range metric.length) _ rfl ?_
      intro rho _
      rw [show riemann_result_to_tensor ⟨[], metric.length⟩ metric.length =
        List.replicate metric.length (List.replicate metric.length
          (List.replicate metric.length (List.replicate metric.length .Zero))) from rfl]
      rw [rAt_zero4]
      rfl
    have hnil : (List.range metric.length).flatMap (fun mu =>
        (List.range metric.length).filterMap (fun nu =>
          if (!(ricci_expr_at (riemann_result_to_tensor ⟨[], metric.length⟩ metric.length)
              metric.length mu nu).simplify.is_zero) = true then
            some (TensorComponent.mk [mu, nu]
              (ricci_expr_at
                (riemann_result_to_tensor ⟨[], metric.length⟩ metric.length)
                metric.length mu nu).simplify.toStr)
          else none)) = [] := by
      refine flatMap_eq_nil _ _ (fun mu _ => ?_)
      rw [List.filterMap_eq_nil_iff]
      intro nu _
      rw [hz]
      rfl
    exact congrArg (fun L => (Except.ok ⟨L, metric.length⟩ :
      Except TensorError RiemannResult)) hnil
  refine ⟨hchristoffel, hriemann, hricci, ?_⟩
  simp only [calculate_ricci_scalar, hricci, hmi, except_bind_ok]
  have hz : (ricci_scalar_expr mi (ricci_result_to_matrix ⟨[], metric.length⟩ metric.length)
      metric.length).simplify = .Zero := by
    rw [show ricci_result_to_matrix ⟨[], metric.length⟩ metric.length =
      List.replicate metric.length (List.replicate metric.length .Zero) from rfl]
    unfold ricci_scalar_expr
    refine foldl2_add_simplify_zero _ (List.range metric.length) (List.range metric.length)
      _ rfl ?_
    intro mu _ nu _
    rw [simplify_Mul]
    rw [show (mAt (List.replicate metric.length (List.replicate metric.length .Zero))
      mu nu).simplify = .Zero from by rw [mAt_zero2]; rfl]
    exact simplifyMul_zero_right _
  rw [hz]
  rfl

/-- Witness for C1 at the concrete all-constant metric `[[Constant 2]]` with
coordinate list `["x"]`. -/
theorem C1_witness :
    calculate_christoffel_symbols [[.Constant ⟨2, 1⟩]] ["x"] = .ok ⟨[], 1⟩ ∧
    calculate_riemann_tensor [[.Constant ⟨2, 1⟩]] ["x"] = .ok ⟨[], 1⟩ ∧
    calculate_ricci_tensor [[.Constant ⟨2, 1⟩]] ["x"] = .ok ⟨[], 1⟩ ∧
    calculate_ricci_scalar [[.Constant ⟨2, 1⟩]] ["x"] = .ok ⟨[], "0"⟩ :=
  C1_constant_metric_pipeline [[.Constant ⟨2, 1⟩]] ["x"]
    (by
      intro row hrow e he
      rw [List.mem_singleton] at hrow
      subst hrow
      rw [List.mem_singleton] at he
      exact ⟨⟨2, 1⟩, he⟩)

/-- Counterexample to C3 as stated: at `a = Variable "x"`, `b = Variable "y"`
the simplified inverse of `diag(a, b)` is
`diag((1/(x*y))*y, (1/(x*y))*x)`, not `diag(1/x, 1/y)`. -/
theorem C3_counterexample :
    ¬ ((calculate_metric_inverse [[.Variable "x", .Zero], [.Zero, .Variable "y"]]).map
        (fun m => m.map (fun row => row.map SymbolicExpr.simplify)) =
      .ok [[.Divide .One (.Variable "x"), .Zero],
           [.Zero, .Divide .One (.Variable "y")]]) := by
  decide

/-- C3 as amended: on `[[a, Zero], [Zero, b]]` the inverse is diagonal after
simplification, but its diagonal entries are the simplified forms of
`(1/(a*b))*b` and `(1/(a*b))*a` (determinant times cofactor), not `1/a` and
`1/b`. -/
theorem C3_amended_inverse_diag (a b : SymbolicExpr) :
    (calculate_metric_inverse [[a, .Zero], [.Zero, b]]).map
        (fun m => m.map (fun row => row.map SymbolicExpr.simplify)) =
      .ok [[(SymbolicExpr.Multiply (.Divide .One (.Multiply a b)) b).simplify, .Zero],
           [.Zero, (SymbolicExpr.Multiply (.Divide .One (.Multiply a b)) a).simplify]] := by
  simp only [calculate_metric_inverse, mAt, List.length_cons, List.length_nil,
    List.getD_cons_zero, List.getD_cons_succ, Except.map, List.map_cons, List.map_nil,
    reduceIte]
  simp only [simplify_Mul, simplify_Div, simplify_Sub, simplify_Zero, simplify_One,
    simplifyMul_zero_left, simplifyMul_zero_right, simplifySub_zero_right]

theorem mem_sparse2 (n : Nat) (f : Nat → Nat → SymbolicExpr) (g : Nat → Nat → String)
    (i j : Nat) (hi : i < n) (hj : j < n) :
    (∃ comp ∈ (List.range n).flatMap (fun mu =>
        (List.range n).filterMap (fun nu =>
          if (!(f mu nu).is_zero) = true then some (TensorComponent.mk [mu, nu] (g mu nu))
          else none)), comp.indices = [i, j]) ↔ (f i j).is_zero = false := by
  constructor
  · rintro ⟨comp, hmem, hidx⟩
    rw [List.mem_flatMap] at hmem
    obtain ⟨mu, _, hmem⟩ := hmem
    rw [List.mem_filterMap] at hmem
    obtain ⟨nu, _, hsome⟩ := hmem
    split at hsome
    · rename_i hcond
      injection hsome with hsome
      rw [← hsome] at hidx
      have hidx' : [mu, nu] = [i, j] := hidx
      injection hidx' with h1 hidx'
      injection hidx' with h2 _
      subst h1
      subst h2
      simpa using hcond
    · exact absurd hsome (by simp)
  · intro h
    refine ⟨TensorComponent.mk [i, j] (g i j), ?_, rfl⟩
    rw [List.mem_flatMap]
    refine ⟨i, List.mem_range.mpr hi, ?_⟩
    rw [List.mem_filterMap]
    refine ⟨j, List.mem_range.mpr hj, ?_⟩
    rw [if_pos (by rw [h]; rfl)]

theorem mem_sparse3 (n : Nat) (f : Nat → Nat → Nat → SymbolicExpr)
    (g : Nat → Nat → Nat → String)
    (i j k : Nat) (hi : i < n) (hj : j < n) (hk : k < n) :
    (∃ comp ∈ (List.range n).flatMap (fun mu =>
        (List.range n).flatMap (fun alpha =>
          (List.range n).filterMap (fun beta =>
            if (!(f mu alpha beta).is_zero) = true then
              some (TensorComponent.mk [mu, alpha, beta] (g mu alpha beta))
            else none))), comp.indices = [i, j, k]) ↔ (f i j k).is_zero = false := by
  constructor
  · rintro ⟨comp, hmem, hidx⟩
    rw [List.mem_flatMap] at hmem
    obtain ⟨mu, _, hmem⟩ := hmem
    rw [List.mem_flatMap] at hmem
    obtain ⟨alpha, _, hmem⟩ := hmem
    rw [List.mem_filterMap] at hmem
    obtain ⟨beta, _, hsome⟩ := hmem
    split at hsome
    · rename_i hcond
      injection hsome with hsome
      rw [← hsome] at hidx
      have hidx' : [mu, alpha, beta] = [i, j, k] := hidx
      injection hidx' with h1 hidx'
      injection hidx' with h2 hidx'
      injection hidx' with h3 _
      subst h1
      subst h2
      subst h3
      simpa using hcond
    · exact absurd hsome (by simp)
  · intro h
    refine ⟨TensorComponent.mk [i, j, k] (g i j k), ?_, rfl⟩
    rw [List.mem_flatMap]
    refine ⟨i, List.mem_range.mpr hi, ?_⟩
    rw [List.mem_flatMap]
    refine ⟨j, List.mem_range.mpr hj, ?_⟩
    rw [List.mem_filterMap]
    refine ⟨k, List.mem_range.mpr hk, ?_⟩
    rw [if_pos (by rw [h]; rfl)]

theorem mem_sparse4 (n : Nat) (f : Nat → Nat → Nat → Nat → SymbolicExpr)
    (g : Nat → Nat → Nat → Nat → String)
    (i j k l : Nat) (hi : i < n) (hj : j < n) (hk : k < n) (hl : l < n) :
    (∃ comp ∈ (List.range n).flatMap (fun rho =>
        (List.range n).flatMap (fun sigma =>
          (List.range n).flatMap (fun mu =>
            (List.range n).filterMap (fun nu =>
              if (!(f rho sigma mu nu).is_zero) = true then
                some (TensorComponent.mk [rho, sigma, mu, nu] (g rho sigma mu nu))
              else none)))), comp.indices = [i, j, k, l]) ↔
      (f i j k l).is_zero = false := by
  constructor
  · rintro ⟨comp, hmem, hidx⟩
    rw [List.mem_flatMap] at hmem
    obtain ⟨rho, _, hmem⟩ := hmem
    rw [List.mem_flatMap] at hmem
    obtain ⟨sigma, _, hmem⟩ := hmem
    rw [List.mem_flatMap] at hmem
    obtain ⟨mu, _, hmem⟩ := hmem
    rw [List.mem_filterMap] at hmem
    obtain ⟨nu, _, hsome⟩ := hmem
    split at hsome
    · rename_i hcond
      injection hsome with hsome
      rw [← hsome] at hidx
      have hidx' : [rho, sigma, mu, nu] = [i, j, k, l] := hidx
      injection hidx' with h1 hidx'
      injection hidx' with h2 hidx'
      injection hidx' with h3 hidx'
      injection hidx' with h4 _
      subst h1
      subst h2
      subst h3
      subst h4
      simpa using hcond
    · exact absurd hsome (by simp)
  · intro h
    refine ⟨TensorComponent.mk [i, j, k, l] (g i j k l), ?_, rfl⟩
    rw [List.mem_flatMap]
    refine ⟨i, List.mem_range.mpr hi, ?_⟩
    rw [List.mem_flatMap]
    refine ⟨j, List.mem_range.mpr hj, ?_⟩
    rw [List.mem_flatMap]
    refine ⟨k, List.mem_range.mpr hk, ?_⟩
    rw [List.mem_filterMap]
    refine ⟨l, List.mem_range.mpr hl, ?_⟩
    rw [if_pos (by rw [h]; rfl)]

theorem parseExpr_eq {s : String} {e : SymbolicExpr} (h : SymbolicExpr.parse s = .ok e) :
    parseExpr s = e := by
  simp only [parseExpr, h]

/-- C6: in the Christoffel, Riemann, Ricci-tensor and Einstein stages an
index tuple appears in the sparse output exactly when its computed,
simplified expression fails the `is_zero` test (the `Zero` sentinel or
`Constant(0.0)`), while the Ricci-scalar stage always emits exactly one
component with an empty index tuple. -/
theorem C6_sparse_nonzero_emission (metric : MetricTensor) (coords : List String)
    (metric_inv : MetricTensor) (cr : ChristoffelResult) (rr ric er : RiemannResult)
    (sc : TensorComponent)
    (hinv : calculate_metric_inverse metric = .ok metric_inv)
    (hcr : calculate_christoffel_symbols metric coords = .ok cr)
    (hrr : calculate_riemann_tensor metric coords = .ok rr)
    (hric : calculate_ricci_tensor metric coords = .ok ric)
    (hsc : calculate_ricci_scalar metric coords = .ok sc)
    (her : calculate_einstein_tensor metric coords = .ok er) :
    (∀ mu alpha beta, mu < metric.length → alpha < metric.length → beta < metric.length →
      ((∃ comp ∈ cr.symbols, comp.indices = [mu, alpha, beta]) ↔
        (christoffel_expr_at metric_inv metric coords metric.length
          mu alpha beta).simplify.is_zero = false)) ∧
    (∀ rho sigma mu nu, rho < metric.length → sigma < metric.length →
      mu < metric.length → nu < metric.length →
      ((∃ comp ∈ rr.components, comp.indices = [rho, sigma, mu, nu]) ↔
        (riemann_expr_at (symbols_to_tensor cr metric.length) coords metric.length
          rho sigma mu nu).simplify.is_zero = false)) ∧
    (∀ mu nu, mu < metric.length → nu < metric.length →
      ((∃ comp ∈ ric.components, comp.indices = [mu, nu]) ↔
        (ricci_expr_at (riemann_result_to_tensor rr metric.length) metric.length
          mu nu).simplify.is_zero = false)) ∧
    (∀ mu nu, mu < metric.length → nu < metric.length →
      ((∃ comp ∈ er.components, comp.indices = [mu, nu]) ↔
        (einstein_expr_at metric (ricci_result_to_matrix ric metric.length)
          (parseExpr sc.expression) mu nu).simplify.is_zero = false)) ∧
    sc.indices = [] := by
  have hcr0 := hcr
  have hrr0 := hrr
  have hric0 := hric
  have hsc0 := hsc
  obtain ⟨pe, hpe⟩ := parse_ok sc.expression
  simp only [calculate_christoffel_symbols, hinv, except_bind_ok] at hcr
  injection hcr with hcr
  simp only [calculate_riemann_tensor, hcr0, except_bind_ok] at hrr
  injection hrr with hrr
  simp only [calculate_ricci_tensor, hrr0, except_bind_ok] at hric
  injection hric with hric
  simp only [calculate_ricci_scalar, hric0, hinv, except_bind_ok] at hsc
  injection hsc with hsc
  simp only [calculate_einstein_tensor, hric0, hsc0, hpe, Except.mapError,
    except_bind_ok] at her
  injection her with her
  refine ⟨?_, ?_, ?_, ?_, ?_⟩
  · intro mu alpha beta hmu halpha hbeta
    rw [← hcr]
    exact mem_sparse3 metric.length _ _ mu alpha beta hmu halpha hbeta
  · intro rho sigma mu nu hrho hsigma hmu hnu
    rw [← hrr, ← hcr]
    exact mem_sparse4 metric.length _ _ rho sigma mu nu hrho hsigma hmu hnu
  · intro mu nu hmu hnu
    rw [← hric, ← hrr]
    exact mem_sparse2 metric.length _ _ mu nu hmu hnu
  · intro mu nu hmu hnu
    rw [← her, ← hric, parseExpr_eq hpe]
    exact mem_sparse2 metric.length _ _ mu nu hmu hnu
  · rw [← hsc]

/-- Witness for C6 on the one-dimensional metric `[[x]]` with coordinate
`x`, whose pipeline outputs are all nonempty: each characterisation is
instantiated at the zero index tuple, and the Ricci-scalar component has the
empty index tuple. -/
theorem C6_witness :
    ((∃ comp ∈ unit_cr.symbols, comp.indices = [0, 0, 0]) ↔
      (christoffel_expr_at [[.One]] unit_metric unit_coords 1 0 0 0).simplify.is_zero
        = false) ∧
    ((∃ comp ∈ unit_rr.components, comp.indices = [0, 0, 0, 0]) ↔
      (riemann_expr_at (symbols_to_tensor unit_cr 1) unit_coords 1
        0 0 0 0).simplify.is_zero = false) ∧
    ((∃ comp ∈ unit_ric.components, comp.indices = [0, 0]) ↔
      (ricci_expr_at (riemann_result_to_tensor unit_rr 1) 1 0 0).simplify.is_zero
        = false) ∧
    ((∃ comp ∈ unit_er.components, comp.indices = [0, 0]) ↔
      (einstein_expr_at unit_metric (ricci_result_to_matrix unit_ric 1)
        (parseExpr unit_sc.expression) 0 0).simplify.is_zero = false) ∧
    unit_sc.indices = [] := by
  have H := C6_sparse_nonzero_emission unit_metric unit_coords [[.One]]
    unit_cr unit_rr unit_ric unit_er unit_sc
    (by decide) (by decide) (by decide) (by decide) (by decide) (by decide)
  exact ⟨H.1 0 0 0 (by decide) (by decide) (by decide),
    H.2.1 0 0 0 0 (by decide) (by decide) (by decide) (by decide),
    H.2.2.1 0 0 (by decide) (by decide),
    H.2.2.2.1 0 0 (by decide) (by decide),
    H.2.2.2.2⟩

/-- C8: on the Schwarzschild metric as parsed by the expression grammar
(dimension 4, so not the 2×2 closed form), the metric inverse used by the
pipeline is the identity placeholder, and the Ricci-scalar stage nonetheless
produces an expression whose rendered text is not `"0"`. -/
theorem C8_schwarzschild_identity_inverse_nonzero_scalar :
    calculate_metric_inverse schwarzschild_metric =
      .ok [[.One, .Zero, .Zero, .Zero], [.Zero, .One, .Zero, .Zero],
           [.Zero, .Zero, .One, .Zero], [.Zero, .Zero, .Zero, .One]] ∧
    ∃ c, calculate_ricci_scalar schwarzschild_metric schwarzschild_coords = .ok c ∧
      c.expression ≠ "0" := by
  refine ⟨by decide, _, rfl, by decide⟩

end TensorCalc
